import Mathlib

/-!
Verification development for the LifeLine blood-donation dashboard.

The definitions below are a shallow embedding of the repository's business
logic: the hospital dashboard's stock cards and appointment schedule
(`HospitalDashboard`, `DonationSchedule`, `AppointmentCard`, `StockCard`),
the organizer portal (`loadCamps`, `handleAddCamp`) and the location picker
(`fetchAddress`).  JS strings are Lean `String`s, JS arrays are Lean
`List`s, string-keyed objects are association lists in key-insertion order,
and fallible operations return `Except`.  The firestore layer
(`updateHospitalStock`, `completeAppointment`, `markAppointmentNoShow` in
`src/lib/firestore.js`) is not among the provided sources; those operations
are modelled from the specification and are marked as such below.
-/

namespace LifeLine

/-- The eight fixed blood-type labels, as listed in `HospitalDashboard`
(line 151) and in the `AppointmentCard` select (line 329). -/
def bloodTypes : List String := ["A+", "A-", "B+", "B-", "AB+", "AB-", "O+", "O-"]

/-- Error taxonomy of the specification (§7). -/
inductive FirestoreError where
  | invalidOperation
  | validationError
  | invalidStateTransition
deriving DecidableEq, Repr

/-- Appointment status: `scheduled | completed | no-show`. -/
inductive ApptStatus where
  | scheduled
  | completed
  | noShow
deriving DecidableEq, Repr

/-- An appointment record as consumed by the dashboard. -/
structure Appointment where
  id : String
  donorId : String
  donorName : String
  date : String
  timeSlot : String
  status : ApptStatus
deriving DecidableEq, Repr

/-! ## Stock reconciliation -/

/-- Derived stock severity.  `StockCard` computes
`isLow = count < 5`, `isCritical = count === 0` and renders
`isCritical ? 'OUT OF STOCK' : isLow ? 'LOW STOCK' : 'Units Available'`. -/
inductive StockStatus where
  | critical
  | low
  | normal
deriving DecidableEq, Repr

/-- Status derivation of `StockCard` (part_000 lines 355-370): critical when
the count is 0, otherwise low when it is below 5, otherwise normal.  Counts
are non-negative integers (`Nat`), per the inventory invariant. -/
def stockStatus (count : Nat) : StockStatus :=
  if count = 0 then .critical
  else if count < 5 then .low
  else .normal

/-- Modelled from the spec: `updateHospitalStock` (the `applyDelta`
operation of §4.1, living in `src/lib/firestore.js`) is not among the
provided sources.  Per §4.1: new count = current + delta; rejects with
`InvalidOperation`, mutating nothing, if the resulting count would be
negative. -/
def applyDelta (c : Nat) (delta : Int) : Except FirestoreError Nat :=
  if (c : Int) + delta < 0 then .error .invalidOperation
  else .ok ((c : Int) + delta).toNat

/-- Modelled from the spec: the external Inventory Store's atomic increment
(§6), used by `completeAppointment` to add one unit of the confirmed type.
The stock mapping is an association list in key-insertion order. -/
def incrementStock (inv : List (String × Nat)) (t : String) : List (String × Nat) :=
  if inv.any (fun p => decide (p.1 = t)) then
    inv.map (fun p => if p.1 = t then (p.1, p.2 + 1) else p)
  else inv ++ [(t, 1)]

/-! ## Appointment workflow (spec-modelled: `src/lib/firestore.js` is not
among the provided sources) -/

/-- Modelled from the spec: `completeAppointment` of `src/lib/firestore.js`
(§4.2 Contract A).  Precondition: the appointment is `scheduled`
(otherwise `InvalidStateTransition`) and the confirmed blood type is
non-empty and one of the eight fixed labels (otherwise `ValidationError`).
Effect: the appointment transitions to `completed` and the venue's
inventory for the confirmed type is incremented by one. -/
def completeAppointment (a : Appointment) (confirmedType : String)
    (inv : List (String × Nat)) :
    Except FirestoreError (Appointment × List (String × Nat)) :=
  if a.status ≠ .scheduled then .error .invalidStateTransition
  else if confirmedType = "" ∨ confirmedType ∉ bloodTypes then .error .validationError
  else .ok ({ a with status := .completed }, incrementStock inv confirmedType)

/-- Modelled from the spec: `markAppointmentNoShow` of
`src/lib/firestore.js` (§4.2 Contract B).  Precondition: the appointment is
`scheduled` (otherwise `InvalidStateTransition`).  Effect: transition to
`no-show`; no inventory effect. -/
def markNoShow (a : Appointment) : Except FirestoreError Appointment :=
  if a.status ≠ .scheduled then .error .invalidStateTransition
  else .ok { a with status := .noShow }

/-! ## Appointment listing (DonationSchedule, part_000 lines 173-197) -/

/-- The dashboard's schedule tab: `'active'` or `'past'`. -/
inductive View where
  | active
  | past
deriving DecidableEq, Repr

/-- Character-wise lower-casing, modelling JS `String.prototype.toLowerCase`
on the ASCII donor names and search terms the dashboard handles. -/
def jsLower (s : String) : List Char := s.data.map Char.toLower

/-- Auxiliary for `containsSub`: does `s` start with `pat`? -/
def startsWithChars : List Char → List Char → Bool
  | _, [] => true
  | [], _ :: _ => false
  | c :: cs, d :: ds => decide (c = d) && startsWithChars cs ds

/-- Substring test on character lists, modelling JS
`String.prototype.includes`. -/
def containsSub : List Char → List Char → Bool
  | [], pat => pat.isEmpty
  | c :: cs, pat => startsWithChars (c :: cs) pat || containsSub cs pat

/-- Search predicate of `DonationSchedule` (line 185-187):
`appt.donorName.toLowerCase().includes(search.toLowerCase())`. -/
def matchesSearch (name term : String) : Bool :=
  containsSub (jsLower name) (jsLower term)

/-- Filtering of `DonationSchedule` (lines 178-187): first keep the
appointments matching the view (`isActive = appt.status === 'scheduled'`;
`active` keeps them, `past` keeps the rest), then keep those whose donor
name matches the search term. -/
def selectAppointments (l : List Appointment) (v : View) (term : String) :
    List Appointment :=
  (l.filter fun a =>
      match v with
      | .active => decide (a.status = .scheduled)
      | .past => ! decide (a.status = .scheduled)).filter
    fun a => matchesSearch a.donorName term

/-- Group lookup, modelling the JS object access `grouped[date]` (the
groups are kept as an association list in key-insertion order; keys are
unique by construction). -/
def lookupGroup : List (String × List Appointment) → String → List Appointment
  | [], _ => []
  | p :: ps, d => if p.1 = d then p.2 else lookupGroup ps d

/-- One step of the grouping reduce of `DonationSchedule` (lines 190-195):
`if (!acc[date]) acc[date] = []; acc[date].push(appt)`.  On the
insertion-ordered association list this appends the appointment to the
entry with its date, or appends a fresh entry at the end. -/
def pushGroup : List (String × List Appointment) → Appointment → List (String × List Appointment)
  | [], a => [(a.date, [a])]
  | p :: ps, a =>
      if p.1 = a.date then (p.1, p.2 ++ [a]) :: ps else p :: pushGroup ps a

/-- The grouping reduce: `displayAppointments.reduce(..., {})`. -/
def groupByDate (l : List Appointment) : List (String × List Appointment) :=
  l.foldl pushGroup []

/-- The date keys, sorted: `Object.keys(grouped).sort()`.  JS `Object.keys`
returns the string keys in insertion order and the default `sort()`
comparator orders strings lexicographically by code unit, which for the
ASCII date keys coincides with `String` order here; the sort is modelled by
`List.insertionSort`, which produces the same sorted permutation. -/
def sortedDates (l : List Appointment) : List String :=
  List.insertionSort (fun d e => d ≤ e) ((groupByDate l).map Prod.fst)

/-- The rendered schedule: `sortedDates.map(date => grouped[date] ...)`,
each date paired with its group. -/
def displayGroups (l : List Appointment) : List (String × List Appointment) :=
  (sortedDates l).map fun d => (d, lookupGroup (groupByDate l) d)

/-! ## Organizer portal (src/pages/OrganizerPortal.jsx) -/

/-- A donation camp, with the fields the organizer portal reads.  Dates are
ISO `YYYY-MM-DD` strings from the date input. -/
structure Camp where
  id : String
  campName : String
  organizerName : String
  contact : String
  address : String
  date : String
  startTime : String
  endTime : String
deriving DecidableEq, Repr

/-- The upcoming filter of `loadCamps` (OrganizerPortal.jsx lines 32-43):
`data.filter(camp => camp.date >= today).sort((a, b) => new Date(a.date) -
new Date(b.date))`.  The JS filter compares the date strings directly; the
sort comparator compares the parsed dates, which for ISO `YYYY-MM-DD`
strings orders exactly as lexicographic string order, modelled here by a
sort on the date string. -/
def upcomingCamps (data : List Camp) (today : String) : List Camp :=
  List.insertionSort (fun a b => a.date ≤ b.date)
    (data.filter fun c => decide (today ≤ c.date))

instance : IsTotal Camp (fun a b => a.date ≤ b.date) :=
  ⟨fun a b => le_total a.date b.date⟩

instance : IsTrans Camp (fun a b => a.date ≤ b.date) :=
  ⟨fun _ _ _ h1 h2 => le_trans h1 h2⟩

/-- Form state of `OrganizerPortal` (lines 15-24): seven text fields plus
the picked coordinates.  The coordinate payload is opaque to the reset
logic, so it is a type parameter. -/
structure OrganizerForm (C : Type) where
  campName : String
  organizerName : String
  contact : String
  address : String
  date : String
  startTime : String
  endTime : String
  coordinates : C

/-- The reset performed by `handleAddCamp` (lines 68-76) after a successful
submission: the seven `useState` setters are called with `''`; no setter
touches `coordinates`. -/
def handleAddCampSuccess {C : Type} (s : OrganizerForm C) : OrganizerForm C :=
  { s with campName := "", organizerName := "", contact := "", address := "",
           date := "", startTime := "", endTime := "" }

/-! ## Location picker (src/components/LocationPickerMap.jsx) -/

/-- The payload `fetchAddress` delivers to `onLocationSelect`.  The
coordinates are passed through opaquely and interpolated into the fallback
label; they are modelled by their JS string rendering. -/
structure LocationSelection where
  lat : String
  lng : String
  address : String
deriving DecidableEq, Repr

/-- Reverse geocoding of `fetchAddress` (LocationPickerMap.jsx lines
99-121).  The network fetch and JSON parse are modelled by an `Except`:
`.error` is the catch branch, `.ok (some name)` a response carrying
`data.display_name`, `.ok none` a response without one.  In every case the
selection is delivered; without a display name the address falls back to
the template string `lat + ", " + lng`. -/
def fetchAddress (lat lng : String) (response : Except Unit (Option String)) :
    LocationSelection :=
  match response with
  | .ok (some name) => { lat := lat, lng := lng, address := name }
  | .ok none => { lat := lat, lng := lng, address := lat ++ ", " ++ lng }
  | .error _ => { lat := lat, lng := lng, address := lat ++ ", " ++ lng }

/-! ## Dashboard stock display (HospitalDashboard, part_000 lines 151-158) -/

/-- The count handed to each `StockCard`:
`inventory.bloodStock[type] || 0`.  A missing key yields `undefined`, which
`|| 0` turns into `0` (a stored count of `0` also stays `0`); the stock
mapping is an association list keyed by blood-type label. -/
def displayedCount (stock : List (String × Nat)) (t : String) : Nat :=
  match stock.find? (fun p => decide (p.1 = t)) with
  | some p => p.2
  | none => 0

/-- The dashboard's card list: one card per fixed blood-type label,
regardless of which keys the stock mapping holds. -/
def dashboardCards (stock : List (String × Nat)) : List (String × Nat) :=
  bloodTypes.map fun t => (t, displayedCount stock t)

/-! ## Theorems -/

theorem lookupGroup_pushGroup (a : Appointment) (d : String)
    (acc : List (String × List Appointment)) :
    lookupGroup (pushGroup acc a) d =
      lookupGroup acc d ++ (if a.date = d then [a] else []) := by
  induction acc with
  | nil => by_cases h : a.date = d <;> simp [pushGroup, lookupGroup, h]
  | cons p ps ih =>
      simp only [pushGroup]
      rcases eq_or_ne p.1 a.date with h | h
      · rw [if_pos h]
        simp only [lookupGroup]
        rcases eq_or_ne p.1 d with hd | hd
        · have had : a.date = d := h.symm.trans hd
          simp [hd, had]
        · have had : a.date ≠ d := fun hh => hd (h.trans hh)
          simp [hd, had]
      · rw [if_neg h]
        simp only [lookupGroup]
        rcases eq_or_ne p.1 d with hd | hd
        · have had : a.date ≠ d := fun hh => h (hd.trans hh.symm)
          simp [hd, had]
        · simp [hd, ih]

theorem lookupGroup_foldl (d : String) (l : List Appointment) :
    ∀ acc, lookupGroup (l.foldl pushGroup acc) d =
      lookupGroup acc d ++ l.filter (fun a => decide (a.date = d)) := by
  induction l with
  | nil => intro acc; simp
  | cons a l ih =>
      intro acc
      simp only [List.foldl_cons, List.filter_cons]
      rw [ih, lookupGroup_pushGroup]
      rcases eq_or_ne a.date d with h | h <;> simp [h]

theorem lookupGroup_groupByDate (l : List Appointment) (d : String) :
    lookupGroup (groupByDate l) d = l.filter (fun a => decide (a.date = d)) := by
  simpa [lookupGroup] using lookupGroup_foldl d l []

theorem mem_keys_pushGroup (acc : List (String × List Appointment))
    (a : Appointment) (d : String) :
    d ∈ (pushGroup acc a).map Prod.fst ↔ d ∈ acc.map Prod.fst ∨ d = a.date := by
  induction acc with
  | nil => simp [pushGroup]
  | cons p ps ih =>
      simp only [pushGroup]
      rcases eq_or_ne p.1 a.date with h | h
      · rw [if_pos h, ← h]
        simp only [List.map_cons, List.mem_cons]
        tauto
      · rw [if_neg h]
        simp only [List.map_cons, List.mem_cons, ih]
        tauto

theorem nodup_keys_pushGroup (a : Appointment)
    (acc : List (String × List Appointment))
    (hnd : (acc.map Prod.fst).Nodup) :
    ((pushGroup acc a).map Prod.fst).Nodup := by
  induction acc with
  | nil => simp [pushGroup]
  | cons p ps ih =>
      simp only [List.map_cons, List.nodup_cons] at hnd
      simp only [pushGroup]
      rcases eq_or_ne p.1 a.date with h | h
      · rw [if_pos h]
        simp only [List.map_cons, List.nodup_cons]
        exact hnd
      · rw [if_neg h]
        simp only [List.map_cons, List.nodup_cons]
        refine ⟨?_, ih hnd.2⟩
        intro hmem
        rcases (mem_keys_pushGroup ps a p.1).mp hmem with hm | hm
        · exact hnd.1 hm
        · exact h hm

theorem nodup_keys_groupByDate (l : List Appointment) :
    ((groupByDate l).map Prod.fst).Nodup := by
  suffices h : ∀ acc, (acc.map Prod.fst).Nodup →
      ((l.foldl pushGroup acc).map Prod.fst).Nodup from h [] (by simp)
  induction l with
  | nil => intro acc h; simpa using h
  | cons a l ih => intro acc h; exact ih _ (nodup_keys_pushGroup a acc h)

theorem mem_keys_groupByDate (l : List Appointment) (d : String) :
    d ∈ (groupByDate l).map Prod.fst ↔ ∃ a ∈ l, a.date = d := by
  suffices h : ∀ acc, (d ∈ (l.foldl pushGroup acc).map Prod.fst ↔
      d ∈ acc.map Prod.fst ∨ ∃ a ∈ l, a.date = d) by
    simpa using h []
  induction l with
  | nil => intro acc; simp
  | cons a l ih =>
      intro acc
      simp only [List.foldl_cons]
      rw [ih, mem_keys_pushGroup]
      constructor
      · rintro ((hm | rfl) | ⟨x, hx, hd⟩)
        · exact Or.inl hm
        · exact Or.inr ⟨a, by simp⟩
        · exact Or.inr ⟨x, by simp [hx], hd⟩
      · rintro (hm | ⟨x, hx, hd⟩)
        · exact Or.inl (Or.inl hm)
        · rcases List.mem_cons.mp hx with rfl | hx
          · exact Or.inl (Or.inr hd.symm)
          · exact Or.inr ⟨x, hx, hd⟩

theorem startsWithChars_iff (pat s : List Char) :
    startsWithChars s pat = true ↔ ∃ post, s = pat ++ post := by
  induction pat generalizing s with
  | nil =>
      cases s <;> simp [startsWithChars]
  | cons d ds ih =>
      cases s with
      | nil => simp [startsWithChars]
      | cons c cs =>
          simp only [startsWithChars, Bool.and_eq_true, decide_eq_true_eq, ih,
            List.cons_append, List.cons.injEq]
          constructor
          · rintro ⟨rfl, post, rfl⟩
            exact ⟨post, rfl, rfl⟩
          · rintro ⟨post, rfl, rfl⟩
            exact ⟨rfl, post, rfl⟩

theorem containsSub_iff (pat s : List Char) :
    containsSub s pat = true ↔ ∃ pre post, s = pre ++ pat ++ post := by
  induction s with
  | nil =>
      simp only [containsSub, List.isEmpty_iff]
      constructor
      · rintro rfl
        exact ⟨[], [], rfl⟩
      · rintro ⟨pre, post, h⟩
        rcases List.append_eq_nil.mp h.symm with ⟨h1, h2⟩
        exact (List.append_eq_nil.mp h1).2
  | cons c cs ih =>
      simp only [containsSub, Bool.or_eq_true, startsWithChars_iff, ih]
      constructor
      · rintro (⟨post, h⟩ | ⟨pre, post, h⟩)
        · exact ⟨[], post, by simpa using h⟩
        · exact ⟨c :: pre, post, by simp [h]⟩
      · rintro ⟨pre, post, h⟩
        cases pre with
        | nil => exact Or.inl ⟨post, by simpa using h⟩
        | cons p ps =>
            simp only [List.cons_append, List.cons.injEq] at h
            exact Or.inr ⟨ps, post, h.2⟩

/-- C1: for every non-negative count `c` and signed integer `delta`,
`applyDelta` rejects the update with no mutation when `c + delta < 0`, and
otherwise produces a new count equal to exactly `c + delta`. -/
theorem applyDelta_rejects_negative_else_exact (c : Nat) (delta : Int) :
    ((c : Int) + delta < 0 → applyDelta c delta = .error .invalidOperation) ∧
    (∀ n : Nat, (n : Int) = (c : Int) + delta → applyDelta c delta = .ok n) := by
  constructor
  · intro h
    simp [applyDelta, h]
  · intro n hn
    have hge : ¬ ((c : Int) + delta < 0) := by omega
    simp only [applyDelta, if_neg hge]
    congr 1
    omega

/-- Witness for C1: `applyDelta 2 (-3)` is rejected; `applyDelta 2 3 = 5`. -/
theorem applyDelta_rejects_negative_else_exact_witness :
    applyDelta 2 (-3) = .error .invalidOperation ∧ applyDelta 2 3 = .ok 5 :=
  ⟨(applyDelta_rejects_negative_else_exact 2 (-3)).1 (by decide),
   (applyDelta_rejects_negative_else_exact 2 3).2 5 (by decide)⟩

/-- C2: calling `completeAppointment` or `markNoShow` on an appointment
whose status is already terminal (`completed` or `no-show`) is rejected
with `InvalidStateTransition`; no transitioned appointment and no updated
inventory is produced, so the appointment and the stock are unchanged. -/
theorem terminal_appointment_rejected (a : Appointment) (t : String)
    (inv : List (String × Nat))
    (h : a.status = .completed ∨ a.status = .noShow) :
    completeAppointment a t inv = .error .invalidStateTransition ∧
    markNoShow a = .error .invalidStateTransition := by
  have hns : a.status ≠ .scheduled := by
    rcases h with h | h <;> simp [h]
  constructor
  · simp [completeAppointment, hns]
  · simp [markNoShow, hns]

/-- Witness for C2: a completed appointment is rejected by both operations. -/
theorem terminal_appointment_rejected_witness :
    completeAppointment
        { id := "a1", donorId := "d1", donorName := "Jane", date := "2024-06-01",
          timeSlot := "10:00", status := .completed } "O+" [("O+", 2)]
      = .error .invalidStateTransition ∧
    markNoShow
        { id := "a1", donorId := "d1", donorName := "Jane", date := "2024-06-01",
          timeSlot := "10:00", status := .completed }
      = .error .invalidStateTransition :=
  terminal_appointment_rejected _ "O+" _ (Or.inl rfl)

/-- C3: the derived stock status is a pure function of the count: critical
iff the count is 0, low iff it is strictly between 0 and 5, normal iff it
is at least 5; in particular count 4 is low and count 5 is normal. -/
theorem stockStatus_characterization (c : Nat) :
    (stockStatus c = .critical ↔ c = 0) ∧
    (stockStatus c = .low ↔ 0 < c ∧ c < 5) ∧
    (stockStatus c = .normal ↔ 5 ≤ c) ∧
    stockStatus 4 = .low ∧ stockStatus 5 = .normal := by
  refine ⟨?_, ?_, ?_, by decide, by decide⟩ <;>
    · unfold stockStatus
      split_ifs with h1 h2 <;> simp_all <;> omega

/-- C6: `completeAppointment` on a scheduled appointment whose confirmed
blood type is empty or not one of the eight fixed labels is rejected with
`ValidationError`, and no transition occurs (no completed appointment and
no inventory update is produced). -/
theorem invalid_confirmed_type_rejected (a : Appointment) (t : String)
    (inv : List (String × Nat))
    (hs : a.status = .scheduled) (ht : t = "" ∨ t ∉ bloodTypes) :
    completeAppointment a t inv = .error .validationError := by
  simp [completeAppointment, hs, ht]

/-- Witness for C6: the label `"Z+"` is rejected on a scheduled
appointment. -/
theorem invalid_confirmed_type_rejected_witness :
    completeAppointment
        { id := "a2", donorId := "d2", donorName := "Bob", date := "2024-06-02",
          timeSlot := "11:00", status := .scheduled } "Z+" [("O+", 2)]
      = .error .validationError :=
  invalid_confirmed_type_rejected _ "Z+" _ rfl (Or.inr (by decide))

/-- C4: `selectAppointments` selects exactly the appointments that
(1) are `scheduled` when the view is `active`, and not `scheduled` when the
view is `past`, and (2) whose lower-cased donor name contains the
lower-cased search term as a substring; the empty term matches every
appointment. -/
theorem selectAppointments_mem (l : List Appointment) (v : View) (term : String)
    (a : Appointment) :
    (a ∈ selectAppointments l v term ↔
      a ∈ l ∧
      (match v with
        | .active => a.status = .scheduled
        | .past => ¬ a.status = .scheduled) ∧
      ∃ pre post, jsLower a.donorName = pre ++ jsLower term ++ post) ∧
    matchesSearch a.donorName "" = true := by
  constructor
  · simp only [selectAppointments, List.mem_filter, matchesSearch, containsSub_iff]
    cases v <;> simp <;> tauto
  · have : jsLower "" = [] := rfl
    simp [matchesSearch, this, containsSub_iff]
    exact ⟨[], jsLower a.donorName, rfl⟩

/-- Witness for C4: in a one-appointment list, the scheduled donor
"Jane Doe" is selected by the active view with search term "jane". -/
theorem selectAppointments_mem_witness :
    { id := "a1", donorId := "d1", donorName := "Jane Doe", date := "2024-06-01",
      timeSlot := "10:00", status := .scheduled : Appointment } ∈
      selectAppointments
        [{ id := "a1", donorId := "d1", donorName := "Jane Doe", date := "2024-06-01",
           timeSlot := "10:00", status := .scheduled }] .active "jane" :=
  (selectAppointments_mem _ .active "jane" _).1.mpr
    ⟨List.mem_singleton.mpr rfl, rfl, [], " doe".data, by decide⟩

/-- C5: `displayGroups` partitions the given appointments by their date:
the emitted dates are sorted in ascending lexicographic order and are
pairwise distinct, they are exactly the dates occurring in the input, and
each date is paired with the sublist of input appointments carrying that
date, in their original relative input order (a `filter` of the input). -/
theorem displayGroups_spec (l : List Appointment) :
    ((displayGroups l).map Prod.fst).Sorted (fun d e => d ≤ e) ∧
    ((displayGroups l).map Prod.fst).Nodup ∧
    (∀ d g, (d, g) ∈ displayGroups l →
      g = l.filter (fun a => decide (a.date = d))) ∧
    (∀ d, d ∈ (displayGroups l).map Prod.fst ↔ ∃ a ∈ l, a.date = d) := by
  have hmap : (displayGroups l).map Prod.fst = sortedDates l := by
    simp [displayGroups, List.map_map, Function.comp_def]
  have hperm : (sortedDates l).Perm ((groupByDate l).map Prod.fst) :=
    List.perm_insertionSort _ _
  refine ⟨?_, ?_, ?_, ?_⟩
  · rw [hmap]
    exact List.sorted_insertionSort _ _
  · rw [hmap]
    exact hperm.nodup_iff.mpr (nodup_keys_groupByDate l)
  · intro d g hmem
    simp only [displayGroups, List.mem_map] at hmem
    obtain ⟨d2, _, heq⟩ := hmem
    have h1 : d2 = d := congrArg Prod.fst heq
    have h2 : lookupGroup (groupByDate l) d2 = g := congrArg Prod.snd heq
    rw [← h1, ← h2]
    exact lookupGroup_groupByDate l d2
  · intro d
    rw [hmap, hperm.mem_iff, mem_keys_groupByDate]

/-- Sample appointment for the C5 witness. -/
def sampleA1 : Appointment :=
  { id := "a1", donorId := "d1", donorName := "Jane", date := "2024-06-02",
    timeSlot := "09:00", status := .scheduled }

/-- Sample appointment for the C5 witness. -/
def sampleA2 : Appointment :=
  { id := "a2", donorId := "d2", donorName := "Bob", date := "2024-06-01",
    timeSlot := "10:00", status := .scheduled }

/-- Sample appointment for the C5 witness. -/
def sampleA3 : Appointment :=
  { id := "a3", donorId := "d3", donorName := "Ada", date := "2024-06-02",
    timeSlot := "11:00", status := .scheduled }

/-- Sample schedule for the C5 witness. -/
def sampleSchedule : List Appointment := [sampleA1, sampleA2, sampleA3]

/-- Witness for C5: on a three-appointment list with dates 06-02, 06-01,
06-02, the group displayed for "2024-06-02" is the input's filter at that
date, preserving input order. -/
theorem displayGroups_spec_witness :
    [sampleA1, sampleA3] =
      sampleSchedule.filter (fun a => decide (a.date = "2024-06-02")) :=
  (displayGroups_spec sampleSchedule).2.2.1 "2024-06-02" [sampleA1, sampleA3]
    (by
      have hkey : "2024-06-02" ∈ sortedDates sampleSchedule := by
        have hk : "2024-06-02" ∈ (groupByDate sampleSchedule).map Prod.fst :=
          (mem_keys_groupByDate sampleSchedule "2024-06-02").mpr
            ⟨sampleA1, by simp [sampleSchedule], rfl⟩
        rw [sortedDates, List.mem_insertionSort]
        exact hk
      have hlook : lookupGroup (groupByDate sampleSchedule) "2024-06-02"
          = [sampleA1, sampleA3] := by
        rw [lookupGroup_groupByDate]
        rfl
      simp only [displayGroups, List.mem_map]
      exact ⟨"2024-06-02", hkey, by simp [hlook]⟩)

/-- C7: `upcomingCamps` returns exactly the camps whose date is at least
`today` (a camp dated today is included, earlier camps are excluded),
sorted in ascending order by date; the result is a permutation of the
filtered input. -/
theorem upcomingCamps_spec (data : List Camp) (today : String) :
    (∀ c, c ∈ upcomingCamps data today ↔ c ∈ data ∧ today ≤ c.date) ∧
    ((upcomingCamps data today).map Camp.date).Sorted (fun d e => d ≤ e) ∧
    (upcomingCamps data today).Perm
      (data.filter fun c => decide (today ≤ c.date)) := by
  refine ⟨?_, ?_, List.perm_insertionSort _ _⟩
  · intro c
    rw [upcomingCamps, List.mem_insertionSort, List.mem_filter,
      decide_eq_true_iff]
  · have hs : (upcomingCamps data today).Sorted (fun a b : Camp => a.date ≤ b.date) :=
      List.sorted_insertionSort _ _
    exact List.pairwise_map.mpr hs

/-- Sample camp dated 2024-05-30 for the C7 witness. -/
def sampleCampMay : Camp :=
  { id := "c1", campName := "May Drive", organizerName := "Org A",
    contact := "111", address := "1 May St", date := "2024-05-30",
    startTime := "09:00", endTime := "12:00" }

/-- Sample camp dated 2024-06-01 for the C7 witness. -/
def sampleCampJune : Camp :=
  { id := "c2", campName := "June Drive", organizerName := "Org B",
    contact := "222", address := "1 June St", date := "2024-06-01",
    startTime := "09:00", endTime := "12:00" }

/-- Witness for C7: with `today = "2024-06-01"`, the camp dated
`"2024-05-30"` is excluded and the one dated `"2024-06-01"` is included. -/
theorem upcomingCamps_spec_witness :
    sampleCampMay ∉ upcomingCamps [sampleCampMay, sampleCampJune] "2024-06-01" ∧
    sampleCampJune ∈ upcomingCamps [sampleCampMay, sampleCampJune] "2024-06-01" :=
  ⟨fun h => absurd
      (((upcomingCamps_spec [sampleCampMay, sampleCampJune] "2024-06-01").1
          sampleCampMay).mp h).2
      (by
        intro hle
        rw [String.le_iff_toList_le] at hle
        revert hle
        decide),
   ((upcomingCamps_spec [sampleCampMay, sampleCampJune] "2024-06-01").1
        sampleCampJune).mpr
      ⟨by simp, le_refl "2024-06-01"⟩⟩

/-- C8: when the reverse-geocoding lookup fails, or succeeds without a
display address, `fetchAddress` still delivers the selection, passing the
coordinate through with the coordinate-string label `"lat, lng"` as its
address. -/
theorem fetchAddress_fallback (lat lng : String)
    (r : Except Unit (Option String))
    (h : r = .ok none ∨ r = .error ()) :
    fetchAddress lat lng r =
      { lat := lat, lng := lng, address := lat ++ ", " ++ lng } := by
  rcases h with rfl | rfl <;> rfl

/-- Witness for C8: a failed lookup at (40.7128, -74.0060) yields the
coordinate-string address. -/
theorem fetchAddress_fallback_witness :
    fetchAddress "40.7128" "-74.0060" (.error ()) =
      { lat := "40.7128", lng := "-74.0060", address := "40.7128, -74.0060" } := by
  rw [fetchAddress_fallback "40.7128" "-74.0060" _ (Or.inr rfl)]
  decide

/-- C9: a blood-type label among the eight fixed labels that is absent
from the stock mapping is displayed with count 0 and derived status
critical, and its card still appears in the dashboard's card list. -/
theorem absent_type_displays_zero_critical (stock : List (String × Nat))
    (t : String) (hmem : t ∈ bloodTypes) (habs : ∀ p ∈ stock, p.1 ≠ t) :
    displayedCount stock t = 0 ∧
    stockStatus (displayedCount stock t) = .critical ∧
    (t, 0) ∈ dashboardCards stock := by
  have hfind : stock.find? (fun p => decide (p.1 = t)) = none := by
    rw [List.find?_eq_none]
    intro p hp
    simpa using habs p hp
  have hdc : displayedCount stock t = 0 := by
    simp [displayedCount, hfind]
  refine ⟨hdc, by simp [hdc, stockStatus], ?_⟩
  simp only [dashboardCards, List.mem_map]
  exact ⟨t, hmem, by rw [hdc]⟩

/-- Witness for C9: with only A+ in stock, the absent label O- is shown
with count 0, critical status, and a card. -/
theorem absent_type_displays_zero_critical_witness :
    displayedCount [("A+", 3)] "O-" = 0 ∧
    stockStatus (displayedCount [("A+", 3)] "O-") = .critical ∧
    ("O-", 0) ∈ dashboardCards [("A+", 3)] :=
  absent_type_displays_zero_critical [("A+", 3)] "O-" (by decide) (by decide)

/-- C10: after a successful camp submission, `handleAddCamp` resets the
seven text form fields to the empty string and leaves the selected map
coordinates unchanged. -/
theorem handleAddCamp_resets_fields (C : Type) (s : OrganizerForm C) :
    (handleAddCampSuccess s).campName = "" ∧
    (handleAddCampSuccess s).organizerName = "" ∧
    (handleAddCampSuccess s).contact = "" ∧
    (handleAddCampSuccess s).address = "" ∧
    (handleAddCampSuccess s).date = "" ∧
    (handleAddCampSuccess s).startTime = "" ∧
    (handleAddCampSuccess s).endTime = "" ∧
    (handleAddCampSuccess s).coordinates = s.coordinates :=
  ⟨rfl, rfl, rfl, rfl, rfl, rfl, rfl, rfl⟩

end LifeLine
